import Mathlib

/-!
Verification development for the disposable-email blocklist maintainer
(`blacklist-email.py`).  The program is shallowly embedded: Python strings
are lists of characters, remote fetches and the on-disk file are `Option`
values (`none` models a failed fetch resp. a missing file), and Python sets
of strings are `Finset`s.  Logging, scheduling and transport mechanics are
outside the model.
-/

namespace BlacklistEmail

/-- Python strings are modelled as lists of characters. -/
abbrev Str := List Char

/-- Python `str.strip()`: drop leading and trailing whitespace. -/
def pyStrip (s : Str) : Str :=
  ((s.dropWhile Char.isWhitespace).reverse.dropWhile Char.isWhitespace).reverse

/-- Python `str.replace("## ", "")`: delete every occurrence of the
three-character marker `"## "`, scanning left to right. -/
def stripMarker : Str → Str
  | '#' :: '#' :: ' ' :: rest => stripMarker rest
  | c :: rest => c :: stripMarker rest
  | [] => []

/-- Python `str.split(sep)` for a one-character separator: `""` yields
`[""]`, and empty segments around consecutive separators are kept. -/
def splitOnChar (sep : Char) : Str → List Str
  | [] => [[]]
  | c :: rest =>
    match splitOnChar sep rest with
    | [] => [[]]
    | h :: t => if c = sep then [] :: h :: t else (c :: h) :: t

/-- Python `sep.join(parts)` for a one-character separator. -/
def joinChar (sep : Char) : List Str → Str
  | [] => []
  | [s] => s
  | s :: rest => s ++ sep :: joinChar sep rest

/-- `normalize_domain` from `blacklist-email.py`, line for line:
strip; delete `"## "`; comment line check; truncation at `'#'` plus
emptiness check; part after the first `'@'`; split on `'.'` dropping empty
segments and rejoin; keep the last two labels when more than two; lowercase. -/
def normalize_domain (entry : Str) : Str :=
  let domain0 := pyStrip entry
  if domain0 = [] then [] else
  let domain1 := stripMarker domain0
  if domain1.head? = some '#' then [] else
  let domain2 := if '#' ∈ domain1 then pyStrip (domain1.takeWhile (fun c => c ≠ '#')) else domain1
  if domain2 = [] then [] else
  let domain3 := if '@' ∈ domain2 then (domain2.dropWhile (fun c => c ≠ '@')).tail else domain2
  let cleaned := joinChar '.' ((splitOnChar '.' domain3).filter (fun seg => seg ≠ []))
  if cleaned = [] then [] else
  let parts := splitOnChar '.' cleaned
  let cleaned2 := if parts.length > 2 then joinChar '.' (parts.drop (parts.length - 2)) else cleaned
  cleaned2.map Char.toLower

/-- `load_existing_domains`: read the output file (a missing file yields the
empty set), normalize every stored line and keep the non-empty results. -/
def load_existing_domains : Option (List Str) → Finset Str
  | none => ∅
  | some lines => ((lines.map normalize_domain).filter (fun d => d ≠ [])).toFinset

/-- `fetch_domains_from_url`: a failed fetch (`none`) contributes the empty
set; a successful response has each line normalized, keeping the non-empty
results. -/
def fetch_domains_from_url : Option (List Str) → Finset Str
  | none => ∅
  | some lines => ((lines.map normalize_domain).filter (fun d => d ≠ [])).toFinset

/-- `fetch_multiple_sources`: union of `fetch_domains_from_url` over every
configured source, folded left as in the Python loop. -/
def fetch_multiple_sources (resps : List (Option (List Str))) : Finset Str :=
  resps.foldl (fun acc r => acc ∪ fetch_domains_from_url r) ∅

/-- `fetch_domains_from_url` with the failure point made explicit: the
response stream delivers `lines` and then either ends normally
(`raised = false`) or raises mid-read (`raised = true`).  In the source the
accumulation loop sits inside the `try` and the `return` outside it, so the
domains accumulated before the exception are returned either way; the
except branch only logs. -/
def fetch_domains_from_stream (lines : List Str) (raised : Bool) : Finset Str :=
  ((lines.map normalize_domain).filter (fun d => d ≠ [])).toFinset

/-- `fetch_multiple_sources` over explicit stream outcomes: union of
`fetch_domains_from_stream`, folded left as in the Python loop. -/
def fetch_multiple_sources_stream (resps : List (List Str × Bool)) : Finset Str :=
  resps.foldl (fun acc r => acc ∪ fetch_domains_from_stream r.1 r.2) ∅

/-- `apply_allowlist`: fast path returning the candidates unchanged when
either set is empty, otherwise set difference with the removal count. -/
def apply_allowlist (domains allowlist : Finset Str) : Finset Str × Nat :=
  if domains = ∅ ∨ allowlist = ∅ then (domains, 0)
  else (domains \ allowlist, domains.card - (domains \ allowlist).card)

/-- Python `sorted` on a collection of strings, lifted to a multiset: the
unique ≤-sorted enumeration (computed by insertion sort, which is
kernel-reducible). -/
def sortedList (s : Multiset Str) : List Str :=
  Quot.liftOn s (fun l => l.insertionSort (· ≤ ·)) fun l₁ l₂ h =>
    List.eq_of_perm_of_sorted
      ((l₁.perm_insertionSort _).trans (h.trans (l₂.perm_insertionSort _).symm))
      (List.sorted_insertionSort _ l₁) (List.sorted_insertionSort _ l₂)

/-- `write_domains`: the file contents produced by persisting a domain set,
one domain per line in sorted order. -/
def write_domains (domains : Finset Str) : List Str :=
  sortedList domains.val

/-- `process_sources` (one refresh cycle): the allowlist response, the list
of source responses and the current file state determine the file state
after the cycle together with the returned addition count. -/
def process_sources (allowResp : Option (List Str)) (resps : List (Option (List Str)))
    (file : Option (List Str)) : Option (List Str) × Nat :=
  let persisted_domains := load_existing_domains file
  let allowlist_domains := fetch_domains_from_url allowResp
  let sanitized_existing := (apply_allowlist persisted_domains allowlist_domains).1
  let removed_existing := (apply_allowlist persisted_domains allowlist_domains).2
  let fetched_domains := fetch_multiple_sources resps
  let filtered_fetched := (apply_allowlist fetched_domains allowlist_domains).1
  if filtered_fetched = ∅ ∧ removed_existing = 0 then (file, 0)
  else
    let new_domains := filtered_fetched \ sanitized_existing
    let final_domains := sanitized_existing ∪ filtered_fetched
    if final_domains ≠ persisted_domains then
      (some (write_domains final_domains), new_domains.card)
    else (file, new_domains.card)

/-- The eight-step normalization pipeline exactly as the specification words
it (for comparison with `normalize_domain`): trim; delete every `"## "`;
empty on a leading `'#'`; truncate at the first `'#'` and trim, empty if
nothing remains; keep the part after the first `'@'`; split on `'.'`, drop
empty segments, rejoin, empty if nothing remains; keep only the last two
labels when more than two remain; lowercase. -/
def normalizePipeline (entry : Str) : Str :=
  let lastSteps : Str → Str := fun d =>
    let host := if '@' ∈ d then (d.dropWhile (fun c => c ≠ '@')).tail else d
    let rejoined := joinChar '.' ((splitOnChar '.' host).filter (fun seg => seg ≠ []))
    if rejoined = [] then [] else
    let labels := splitOnChar '.' rejoined
    let kept := if labels.length > 2 then joinChar '.' (labels.drop (labels.length - 2)) else rejoined
    kept.map Char.toLower
  let trimmed := pyStrip entry
  if trimmed = [] then [] else
  let unmarked := stripMarker trimmed
  if unmarked.head? = some '#' then [] else
  if '#' ∈ unmarked then
    (if pyStrip (unmarked.takeWhile (fun c => c ≠ '#')) = [] then []
     else lastSteps (pyStrip (unmarked.takeWhile (fun c => c ≠ '#'))))
  else lastSteps unmarked

/-- Proof device: the subexpression of `normalize_domain` that runs after the
host part has been extracted (steps 6 to 8), as a function of the host
string. -/
def tailFun2 (domain3 : Str) : Str :=
  let cleaned := joinChar '.' ((splitOnChar '.' domain3).filter (fun seg => seg ≠ []))
  if cleaned = [] then [] else
  let parts := splitOnChar '.' cleaned
  let cleaned2 := if parts.length > 2 then joinChar '.' (parts.drop (parts.length - 2)) else cleaned
  cleaned2.map Char.toLower

/-- Proof device: the subexpression of `normalize_domain` that runs after the
comment-stripping steps (steps 5 to 8), as a function of the intermediate
string. -/
def tailFun (d2 : Str) : Str :=
  tailFun2 (if '@' ∈ d2 then (d2.dropWhile (fun c => c ≠ '@')).tail else d2)

/-- The domain set one cycle decides to keep: the loaded persisted set when
the outage guard fires, otherwise the union of the sanitized existing set
and the filtered fetched set. -/
def cycle_final_set (allowResp : Option (List Str)) (resps : List (Option (List Str)))
    (file : Option (List Str)) : Finset Str :=
  let allowlist_domains := fetch_domains_from_url allowResp
  let persisted_domains := load_existing_domains file
  if (apply_allowlist (fetch_multiple_sources resps) allowlist_domains).1 = ∅ ∧
      (apply_allowlist persisted_domains allowlist_domains).2 = 0
    then persisted_domains
    else (apply_allowlist persisted_domains allowlist_domains).1 ∪
      (apply_allowlist (fetch_multiple_sources resps) allowlist_domains).1

/-- The uniform specification of the allowlist filter (for comparison with
`apply_allowlist`): plain set difference together with the intersection size
as removal count. -/
def applyAllowlistSpec (domains allowlist : Finset Str) : Finset Str × Nat :=
  (domains \ allowlist, (domains ∩ allowlist).card)

/-- The filtered result is always a subset of the candidates. -/
lemma apply_allowlist_fst_subset (D A : Finset Str) : (apply_allowlist D A).1 ⊆ D := by
  unfold apply_allowlist
  split_ifs with h
  · exact Finset.Subset.refl D
  · exact Finset.sdiff_subset

/-- The filtered result never meets the allowlist. -/
lemma apply_allowlist_fst_disjoint (D A : Finset Str) : Disjoint (apply_allowlist D A).1 A := by
  unfold apply_allowlist
  split_ifs with h
  · rcases h with h | h <;> simp [h]
  · exact Finset.sdiff_disjoint

/-- On candidates disjoint from the allowlist, filtering is a no-op. -/
lemma apply_allowlist_of_disjoint {D A : Finset Str} (h : Disjoint D A) :
    apply_allowlist D A = (D, 0) := by
  unfold apply_allowlist
  split_ifs with hif
  · rfl
  · rw [sdiff_eq_self_iff_disjoint'.mpr h]
    simp

/-- A zero removal count against a non-empty allowlist means the candidates
were already disjoint from it. -/
lemma disjoint_of_apply_allowlist_snd_zero {D A : Finset Str} (hA : A ≠ ∅)
    (h : (apply_allowlist D A).2 = 0) : Disjoint D A := by
  unfold apply_allowlist at h
  split_ifs at h with hif
  · rcases hif with hD | hA'
    · simp [hD]
    · exact absurd hA' hA
  · have hsub : D \ A ⊆ D := Finset.sdiff_subset
    have hcard : D.card ≤ (D \ A).card := Nat.le_of_sub_eq_zero h
    have heq : D \ A = D := Finset.eq_of_subset_of_card_le hsub hcard
    exact sdiff_eq_self_iff_disjoint'.mp heq

/-- A candidate outside the allowlist survives the filter. -/
lemma mem_apply_allowlist_fst {D A : Finset Str} {d : Str} (hd : d ∈ D) (hA : d ∉ A) :
    d ∈ (apply_allowlist D A).1 := by
  unfold apply_allowlist
  split_ifs with h
  · exact hd
  · exact Finset.mem_sdiff.mpr ⟨hd, hA⟩

/-- Membership in a successful fetch: the non-empty normalizations of the
response lines. -/
lemma mem_fetch_iff {lines : List Str} {d : Str} :
    d ∈ fetch_domains_from_url (some lines) ↔
      (∃ l ∈ lines, normalize_domain l = d) ∧ d ≠ [] := by
  simp [fetch_domains_from_url, List.mem_filter, List.mem_toFinset, List.mem_map]

/-- Domains loaded from a file are non-empty strings. -/
lemma mem_load_ne_nil {f : Option (List Str)} {d : Str}
    (h : d ∈ load_existing_domains f) : d ≠ [] := by
  cases f with
  | none => simp [load_existing_domains] at h
  | some lines =>
    simp only [load_existing_domains, List.mem_toFinset, List.mem_filter] at h
    simpa using h.2

/-- Domains fetched from a source are non-empty strings. -/
lemma mem_fetch_ne_nil {r : Option (List Str)} {d : Str}
    (h : d ∈ fetch_domains_from_url r) : d ≠ [] := by
  cases r with
  | none => simp [fetch_domains_from_url] at h
  | some lines => exact (mem_fetch_iff.mp h).2

/-- Unfolding the aggregation fold over the sources. -/
lemma mem_foldl_union {rs : List (Option (List Str))} {acc : Finset Str} {d : Str} :
    d ∈ rs.foldl (fun acc r => acc ∪ fetch_domains_from_url r) acc ↔
      d ∈ acc ∨ ∃ r ∈ rs, d ∈ fetch_domains_from_url r := by
  induction rs generalizing acc with
  | nil => simp
  | cons r rs ih =>
    simp only [List.foldl_cons, ih, Finset.mem_union, List.mem_cons]
    constructor
    · rintro ((h | h) | ⟨r', hr', h⟩)
      · exact Or.inl h
      · exact Or.inr ⟨r, Or.inl rfl, h⟩
      · exact Or.inr ⟨r', Or.inr hr', h⟩
    · rintro (h | ⟨r', (rfl | hr'), h⟩)
      · exact Or.inl (Or.inl h)
      · exact Or.inl (Or.inr h)
      · exact Or.inr ⟨r', hr', h⟩

/-- Membership in the aggregated fetch. -/
lemma mem_fetch_multiple_sources {rs : List (Option (List Str))} {d : Str} :
    d ∈ fetch_multiple_sources rs ↔ ∃ r ∈ rs, d ∈ fetch_domains_from_url r := by
  simp [fetch_multiple_sources, mem_foldl_union]

/-- Aggregated domains are non-empty strings. -/
lemma mem_fetch_multiple_ne_nil {rs : List (Option (List Str))} {d : Str}
    (h : d ∈ fetch_multiple_sources rs) : d ≠ [] := by
  obtain ⟨r, _, hr⟩ := mem_fetch_multiple_sources.mp h
  exact mem_fetch_ne_nil hr

/-- The sorted enumeration has the same members as the multiset. -/
lemma mem_sortedList {m : Multiset Str} {d : Str} : d ∈ sortedList m ↔ d ∈ m := by
  induction m using Quotient.inductionOn with
  | h l =>
    show d ∈ l.insertionSort (fun a b => a ≤ b) ↔ _
    rw [(List.perm_insertionSort _ l).mem_iff]
    simp

/-- The written file lists exactly the members of the persisted set. -/
lemma mem_write_domains {D : Finset Str} {d : Str} : d ∈ write_domains D ↔ d ∈ D := by
  rw [write_domains, mem_sortedList]
  exact Iff.rfl

/-- Loading a file just written reproduces the persisted set, provided every
stored domain is a non-empty fixed point of normalization. -/
lemma load_write {D : Finset Str} (hne : ∀ d ∈ D, d ≠ [])
    (hfix : ∀ d ∈ D, normalize_domain d = d) :
    load_existing_domains (some (write_domains D)) = D := by
  have hdef : load_existing_domains (some (write_domains D)) =
      (((write_domains D).map normalize_domain).filter (fun d => d ≠ [])).toFinset := rfl
  rw [hdef]
  have h1 : (write_domains D).map normalize_domain = (write_domains D).map id := by
    apply List.map_congr_left
    intro a ha
    rw [hfix a (mem_write_domains.mp ha)]
    rfl
  rw [h1, List.map_id]
  have h2 : (write_domains D).filter (fun d => d ≠ []) = write_domains D := by
    rw [List.filter_eq_self]
    intro a ha
    simpa using hne a (mem_write_domains.mp ha)
  rw [h2]
  ext a
  rw [List.mem_toFinset, mem_write_domains]

/-- Unfolding one cycle on the guarded branch: nothing fetched and nothing
removed means the file and the return value are untouched. -/
lemma process_sources_guard_eq (a : Option (List Str)) (rs : List (Option (List Str)))
    (f : Option (List Str))
    (h1 : (apply_allowlist (fetch_multiple_sources rs) (fetch_domains_from_url a)).1 = ∅)
    (h2 : (apply_allowlist (load_existing_domains f) (fetch_domains_from_url a)).2 = 0) :
    process_sources a rs f = (f, 0) := by
  unfold process_sources
  simp [h1, h2]

/-- Unfolding one cycle past the guard: the conditional write of the union
and the count of genuinely new domains. -/
lemma process_sources_main_eq (a : Option (List Str)) (rs : List (Option (List Str)))
    (f : Option (List Str))
    (h : ¬((apply_allowlist (fetch_multiple_sources rs) (fetch_domains_from_url a)).1 = ∅ ∧
           (apply_allowlist (load_existing_domains f) (fetch_domains_from_url a)).2 = 0)) :
    process_sources a rs f =
      (if (apply_allowlist (load_existing_domains f) (fetch_domains_from_url a)).1 ∪
            (apply_allowlist (fetch_multiple_sources rs) (fetch_domains_from_url a)).1 ≠
            load_existing_domains f
        then some (write_domains
          ((apply_allowlist (load_existing_domains f) (fetch_domains_from_url a)).1 ∪
           (apply_allowlist (fetch_multiple_sources rs) (fetch_domains_from_url a)).1))
        else f,
       ((apply_allowlist (fetch_multiple_sources rs) (fetch_domains_from_url a)).1 \
        (apply_allowlist (load_existing_domains f) (fetch_domains_from_url a)).1).card) := by
  unfold process_sources
  simp only [if_neg h]
  split_ifs with h2 <;> rfl

/-- Unfolding `Char.toLower` on an ASCII uppercase letter. -/
lemma toLower_of_upper (c : Char) (h : c.toNat ≥ 65 ∧ c.toNat ≤ 90) :
    Char.toLower c = Char.ofNat (c.toNat + 32) := by
  have hdef : Char.toLower c =
      if c.toNat ≥ 65 ∧ c.toNat ≤ 90 then Char.ofNat (c.toNat + 32) else c := rfl
  rw [hdef, if_pos h]

/-- Unfolding `Char.toLower` outside the ASCII uppercase range. -/
lemma toLower_of_not_upper (c : Char) (h : ¬(c.toNat ≥ 65 ∧ c.toNat ≤ 90)) :
    Char.toLower c = c := by
  have hdef : Char.toLower c =
      if c.toNat ≥ 65 ∧ c.toNat ≤ 90 then Char.ofNat (c.toNat + 32) else c := rfl
  rw [hdef, if_neg h]

/-- Lowercasing is idempotent. -/
lemma toLower_toLower (c : Char) : Char.toLower (Char.toLower c) = Char.toLower c := by
  by_cases h : c.toNat ≥ 65 ∧ c.toNat ≤ 90
  · rw [toLower_of_upper c h]
    obtain ⟨h1, h2⟩ := h
    generalize hg : c.toNat = n at h1 h2
    interval_cases n <;> decide
  · rw [toLower_of_not_upper c h]
    exact toLower_of_not_upper c h

/-- Lowercasing never produces the comment marker from another character. -/
lemma toLower_eq_hash {c : Char} (h : Char.toLower c = '#') : c = '#' := by
  by_cases hc : c.toNat ≥ 65 ∧ c.toNat ≤ 90
  · rw [toLower_of_upper c hc] at h
    exfalso
    obtain ⟨h1, h2⟩ := hc
    generalize hg : c.toNat = n at h1 h2 h
    interval_cases n <;> exact absurd h (by decide)
  · rwa [toLower_of_not_upper c hc] at h

/-- Characters surviving a strip were in the original string. -/
lemma mem_pyStrip {c : Char} {s : Str} (h : c ∈ pyStrip s) : c ∈ s := by
  unfold pyStrip at h
  have h1 := List.mem_reverse.mp h
  have h2 := (List.dropWhile_sublist _).subset h1
  have h3 := List.mem_reverse.mp h2
  exact (List.dropWhile_sublist _).subset h3

/-- The split never produces an empty list of segments. -/
lemma splitOnChar_ne_nil (sep : Char) (s : Str) : splitOnChar sep s ≠ [] := by
  cases s with
  | nil => simp [splitOnChar]
  | cons x xs =>
    unfold splitOnChar
    cases h : splitOnChar sep xs with
    | nil => simp
    | cons a t => split_ifs <;> simp

/-- Characters of a segment of the split come from the split string. -/
lemma mem_of_mem_splitOnChar {sep c : Char} :
    ∀ {s p : Str}, p ∈ splitOnChar sep s → c ∈ p → c ∈ s := by
  intro s
  induction s with
  | nil =>
    intro p hp hc
    simp [splitOnChar] at hp
    subst hp
    simp at hc
  | cons x xs ih =>
    intro p hp hc
    unfold splitOnChar at hp
    rcases heq : splitOnChar sep xs with _ | ⟨a, t⟩
    · exact absurd heq (splitOnChar_ne_nil sep xs)
    · rw [heq] at hp
      have hp2 : p ∈ (if x = sep then ([] : Str) :: a :: t else (x :: a) :: t) := hp
      clear hp
      by_cases hx : x = sep
      · rw [if_pos hx] at hp2
        rcases List.mem_cons.mp hp2 with rfl | hp'
        · simp at hc
        · have : p ∈ splitOnChar sep xs := heq ▸ hp'
          exact List.mem_cons_of_mem x (ih this hc)
      · rw [if_neg hx] at hp2
        rcases List.mem_cons.mp hp2 with rfl | hp'
        · rcases List.mem_cons.mp hc with rfl | hc'
          · exact List.mem_cons_self c xs
          · have ha : a ∈ splitOnChar sep xs := heq ▸ List.mem_cons_self a t
            exact List.mem_cons_of_mem x (ih ha hc')
        · have : p ∈ splitOnChar sep xs := heq ▸ List.mem_cons_of_mem a hp'
          exact List.mem_cons_of_mem x (ih this hc)

/-- Characters of a join are the separator or come from some part. -/
lemma mem_joinChar {sep c : Char} :
    ∀ {parts : List Str}, c ∈ joinChar sep parts → c = sep ∨ ∃ p ∈ parts, c ∈ p
  | [], h => absurd h (List.not_mem_nil c)
  | [s], h => Or.inr ⟨s, List.mem_singleton.mpr rfl, h⟩
  | s :: s2 :: rest, h => by
    have hdef : joinChar sep (s :: s2 :: rest) = s ++ sep :: joinChar sep (s2 :: rest) := rfl
    rw [hdef] at h
    rcases List.mem_append.mp h with h | h
    · exact Or.inr ⟨s, List.mem_cons_self s _, h⟩
    · rcases List.mem_cons.mp h with rfl | h
      · exact Or.inl rfl
      · rcases mem_joinChar h with h | ⟨p, hp, hc⟩
        · exact Or.inl h
        · exact Or.inr ⟨p, List.mem_cons_of_mem s hp, hc⟩

/-- Every run of `normalize_domain` either returns empty or runs the last
steps on a marker-free intermediate string. -/
lemma normalize_cases (s : Str) :
    normalize_domain s = [] ∨ ∃ d2, '#' ∉ d2 ∧ normalize_domain s = tailFun d2 := by
  by_cases h1 : pyStrip s = []
  · left; unfold normalize_domain; simp [h1]
  · by_cases h2 : (stripMarker (pyStrip s)).head? = some '#'
    · left; unfold normalize_domain; simp [if_neg h1, h2]
    · by_cases h3 : '#' ∈ stripMarker (pyStrip s)
      · by_cases h4 : pyStrip ((stripMarker (pyStrip s)).takeWhile (fun c => c ≠ '#')) = []
        · left; unfold normalize_domain
          simp only [if_neg h1, if_neg h2, if_pos h3]
          rw [if_pos h4]
        · right
          refine ⟨pyStrip ((stripMarker (pyStrip s)).takeWhile (fun c => c ≠ '#')), ?_, ?_⟩
          · intro hmem
            have := List.mem_takeWhile_imp (mem_pyStrip hmem)
            simp at this
          · unfold normalize_domain tailFun tailFun2
            simp only [if_neg h1, if_neg h2, if_pos h3, if_neg h4]
      · by_cases h4 : stripMarker (pyStrip s) = []
        · left; unfold normalize_domain
          simp [if_neg h1, if_neg h2, if_neg h3, h4]
        · right
          refine ⟨stripMarker (pyStrip s), h3, ?_⟩
          unfold normalize_domain tailFun tailFun2
          simp only [if_neg h1, if_neg h2, if_neg h3, if_neg h4]

/-- Characters of the rejoined split are the separator or characters of the
input. -/
lemma mem_cleaned {d3 : Str} {b : Char}
    (h : b ∈ joinChar '.' ((splitOnChar '.' d3).filter (fun seg => seg ≠ []))) :
    b = '.' ∨ b ∈ d3 := by
  rcases mem_joinChar h with h | ⟨p, hp, hbp⟩
  · exact Or.inl h
  · exact Or.inr (mem_of_mem_splitOnChar (List.mem_of_mem_filter hp) hbp)

/-- Characters of the truncation to the last labels are the separator or
characters of the rejoined string. -/
lemma mem_joined_drop {cl : Str} {k : Nat} {b : Char}
    (h : b ∈ joinChar '.' ((splitOnChar '.' cl).drop k)) : b = '.' ∨ b ∈ cl := by
  rcases mem_joinChar h with h | ⟨p, hp, hbp⟩
  · exact Or.inl h
  · exact Or.inr (mem_of_mem_splitOnChar (List.mem_of_mem_drop hp) hbp)

/-- The rejoin-truncate-lowercase steps only emit lowercase-stable characters
and never the comment marker, provided the host string is marker-free. -/
lemma tailFun2_chars {d3 : Str} (hd3 : '#' ∉ d3) {c : Char} (hc : c ∈ tailFun2 d3) :
    Char.toLower c = c ∧ c ≠ '#' := by
  unfold tailFun2 at hc
  by_cases hcl : joinChar '.' ((splitOnChar '.' d3).filter (fun seg => seg ≠ [])) = []
  · simp only [if_pos hcl] at hc
    simp at hc
  · simp only [if_neg hcl] at hc
    obtain ⟨b, hb, rfl⟩ := List.mem_map.mp hc
    have hbne : b ≠ '#' := by
      by_cases hlen :
          (splitOnChar '.' (joinChar '.' ((splitOnChar '.' d3).filter
            (fun seg => seg ≠ [])))).length > 2
      · rw [if_pos hlen] at hb
        rcases mem_joined_drop hb with rfl | hbcl
        · decide
        · rcases mem_cleaned hbcl with rfl | hbd3
          · decide
          · exact fun habs => hd3 (habs ▸ hbd3)
      · rw [if_neg hlen] at hb
        rcases mem_cleaned hb with rfl | hbd3
        · decide
        · exact fun habs => hd3 (habs ▸ hbd3)
    exact ⟨toLower_toLower b, fun habs => hbne (toLower_eq_hash habs)⟩

/-- The last normalization steps only emit lowercase-stable characters and
never the comment marker, provided the intermediate string is marker-free. -/
lemma tailFun_chars {d2 : Str} (hd2 : '#' ∉ d2) {c : Char} (hc : c ∈ tailFun d2) :
    Char.toLower c = c ∧ c ≠ '#' := by
  unfold tailFun at hc
  apply tailFun2_chars _ hc
  split_ifs with h
  · intro hmem
    exact hd2 (((List.tail_sublist _).trans (List.dropWhile_sublist _)).subset hmem)
  · exact hd2

/-- Characters of any normalization result are lowercase-stable and never the
comment marker. -/
lemma normalize_chars {s : Str} {c : Char} (hc : c ∈ normalize_domain s) :
    Char.toLower c = c ∧ c ≠ '#' := by
  rcases normalize_cases s with h | ⟨d2, hd2, h⟩
  · rw [h] at hc
    simp at hc
  · rw [h] at hc
    exact tailFun_chars hd2 hc

/-- C1: for every raw input line, `normalize_domain` returns exactly the
result of the specification's eight-step pipeline applied in order with
short-circuit on empty, and in particular maps the line
"## FREE@MAIL.example.CO.UK  " to "co.uk". -/
theorem claim_C1_normalize_pipeline :
    (∀ s : Str, normalize_domain s = normalizePipeline s) ∧
    normalize_domain ("## FREE@MAIL.example.CO.UK  ".toList) = "co.uk".toList := by
  constructor
  · intro s
    unfold normalize_domain normalizePipeline
    by_cases h1 : pyStrip s = []
    · simp [h1]
    · simp only [if_neg h1]
      by_cases h2 : (stripMarker (pyStrip s)).head? = some '#'
      · simp [h2]
      · simp only [if_neg h2]
        by_cases h3 : '#' ∈ stripMarker (pyStrip s)
        · simp only [if_pos h3]
        · simp only [if_neg h3]
          by_cases h4 : stripMarker (pyStrip s) = []
          · simp only [h4]
            decide
          · simp only [if_neg h4]
  · decide

/-- C2 counterexample: a non-empty normalization result can retain an '@'
(input "a@b@c.com") and leading whitespace (input "a@ b.com"), violating the
claimed no-local-part and no-leading-whitespace invariants. -/
theorem claim_C2_counterexample :
    normalize_domain ("a@b@c.com".toList) = "b@c.com".toList ∧
    '@' ∈ "b@c.com".toList ∧
    normalize_domain ("a@ b.com".toList) = " b.com".toList ∧
    (" b.com".toList).head? = some ' ' := by decide

/-- C2 amended: every non-empty normalization result is non-empty, entirely
lowercase (lowercasing it is the identity) and contains no comment marker;
it may however retain '@' characters and whitespace. -/
theorem claim_C2_amended (s : Str) (h : normalize_domain s ≠ []) :
    normalize_domain s ≠ [] ∧
    (normalize_domain s).map Char.toLower = normalize_domain s ∧
    '#' ∉ normalize_domain s := by
  refine ⟨h, ?_, ?_⟩
  · have hlc : ∀ c ∈ normalize_domain s, Char.toLower c = c :=
      fun c hc => (normalize_chars hc).1
    calc (normalize_domain s).map Char.toLower
        = (normalize_domain s).map id := List.map_congr_left hlc
      _ = normalize_domain s := List.map_id _
  · intro hmem
    exact (normalize_chars hmem).2 rfl

/-- Witness for the amended C2 at the concrete input "Example.COM". -/
theorem claim_C2_amended_witness :
    normalize_domain ("Example.COM".toList) ≠ [] ∧
    (normalize_domain ("Example.COM".toList)).map Char.toLower =
      normalize_domain ("Example.COM".toList) ∧
    '#' ∉ normalize_domain ("Example.COM".toList) :=
  claim_C2_amended ("Example.COM".toList) (by decide)

/-- C4: when the filtered fetched set is empty and no allowlisted domains
were removed from the persisted set, the cycle performs no write — the file
after the cycle is exactly the file before — and returns 0. -/
theorem claim_C4_outage_guard (a : Option (List Str)) (rs : List (Option (List Str)))
    (f : Option (List Str))
    (h1 : (apply_allowlist (fetch_multiple_sources rs) (fetch_domains_from_url a)).1 = ∅)
    (h2 : (apply_allowlist (load_existing_domains f) (fetch_domains_from_url a)).2 = 0) :
    process_sources a rs f = (f, 0) :=
  process_sources_guard_eq a rs f h1 h2

/-- Witness for C4: a populated file, a failed allowlist fetch and a single
failing source leave the file byte-for-byte unchanged. -/
theorem claim_C4_witness :
    process_sources none [none] (some ["a.com".toList]) = (some ["a.com".toList], 0) :=
  claim_C4_outage_guard none [none] (some ["a.com".toList]) (by decide) (by decide)

/-- C5: the allowlist filter returns the candidates unchanged with count 0
whenever either input is empty, and otherwise returns the set difference
together with the drop in cardinality. -/
theorem claim_C5_apply_allowlist_contract (S A : Finset Str) :
    ((S = ∅ ∨ A = ∅) → apply_allowlist S A = (S, 0)) ∧
    apply_allowlist S ∅ = (S, 0) ∧
    apply_allowlist ∅ A = (∅, 0) ∧
    (S ≠ ∅ → A ≠ ∅ → apply_allowlist S A = (S \ A, S.card - (S \ A).card)) := by
  refine ⟨fun h => ?_, ?_, ?_, fun hS hA => ?_⟩
  · unfold apply_allowlist
    rw [if_pos h]
  · unfold apply_allowlist
    rw [if_pos (Or.inr rfl)]
  · unfold apply_allowlist
    rw [if_pos (Or.inl rfl)]
  · unfold apply_allowlist
    rw [if_neg (by rintro (h | h); exacts [hS h, hA h])]

/-- Witness for C5 on the concrete sets {a.com} and {a.com}. -/
theorem claim_C5_witness :
    apply_allowlist {"a.com".toList} ∅ = ({"a.com".toList}, 0) ∧
    apply_allowlist ({"a.com".toList} : Finset Str) {"a.com".toList} =
      ({"a.com".toList} \ {"a.com".toList},
        ({"a.com".toList} : Finset Str).card -
          (({"a.com".toList} : Finset Str) \ {"a.com".toList}).card) :=
  ⟨(claim_C5_apply_allowlist_contract {"a.com".toList} ∅).2.1,
   (claim_C5_apply_allowlist_contract {"a.com".toList} {"a.com".toList}).2.2.2
     (by decide) (by decide)⟩

/-- C7: with persisted {a.com}, allowlist {a.com} and every source failing,
the sanitized existing set is empty with one removal, the filtered fetched
set is empty, and the cycle still writes — producing an empty file — and
returns 0. -/
theorem claim_C7_allowlist_removal_writes :
    apply_allowlist (load_existing_domains (some ["a.com".toList]))
        (fetch_domains_from_url (some ["a.com".toList])) = (∅, 1) ∧
    apply_allowlist (fetch_multiple_sources [none, none, none, none])
        (fetch_domains_from_url (some ["a.com".toList])) = (∅, 0) ∧
    process_sources (some ["a.com".toList]) [none, none, none, none]
        (some ["a.com".toList]) = (some [], 0) := by decide

/-- C9 counterexample: a source whose stream delivers the line a.com and
then raises a transport failure returns the non-empty set {a.com} — not the
empty set — and contributes it to the aggregated union. -/
theorem claim_C9_counterexample :
    fetch_domains_from_stream ["a.com".toList] true ≠ ∅ ∧
    fetch_domains_from_stream ["a.com".toList] true = {"a.com".toList} ∧
    fetch_multiple_sources_stream [(["a.com".toList], true)] = {"a.com".toList} := by
  decide

/-- C9 amended: a transport failure is swallowed, never propagated: the
fetch returns exactly the domains accumulated before the failure point, the
same set whether the stream ended normally or raised; it returns the empty
set precisely when the failure happened before any line was read, and only
such a source contributes nothing to the union.  On success every line's
non-empty normalization is added.  The Option-valued model used by the
cycle-level claims is the special case of a failure that delivered no
lines. -/
theorem claim_C9_amended :
    (∀ lines : List Str,
      fetch_domains_from_stream lines true = fetch_domains_from_stream lines false) ∧
    fetch_domains_from_stream [] true = ∅ ∧
    (∀ (lines : List Str) (raised : Bool),
      fetch_domains_from_stream lines raised = fetch_domains_from_url (some lines)) ∧
    fetch_domains_from_url none = fetch_domains_from_stream [] true ∧
    (∀ rs, fetch_multiple_sources_stream (([], true) :: rs) =
      fetch_multiple_sources_stream rs) ∧
    (∀ (lines : List Str) (raised : Bool) (d : Str),
      d ∈ fetch_domains_from_stream lines raised ↔
        (∃ l ∈ lines, normalize_domain l = d) ∧ d ≠ []) := by
  refine ⟨fun lines => rfl, by decide, fun lines raised => rfl, by decide,
    fun rs => ?_, fun lines raised d => ?_⟩
  · unfold fetch_multiple_sources_stream
    rw [List.foldl_cons]
    have h0 : (∅ : Finset Str) ∪ fetch_domains_from_stream [] true = ∅ := by decide
    rw [h0]
  · have hbr : fetch_domains_from_stream lines raised = fetch_domains_from_url (some lines) := rfl
    rw [hbr]
    exact mem_fetch_iff

/-- C10: the branchy allowlist filter is extensionally equal to the uniform
definition - set difference with intersection cardinality - on all inputs. -/
theorem claim_C10_apply_allowlist_refinement (S A : Finset Str) :
    apply_allowlist S A = applyAllowlistSpec S A := by
  unfold apply_allowlist applyAllowlistSpec
  split_ifs with h
  · rcases h with h | h <;> subst h <;> simp
  · have hcard : (S \ A).card + (S ∩ A).card = S.card := Finset.card_sdiff_add_card_inter S A
    have hsub : S.card - (S \ A).card = (S ∩ A).card := by omega
    rw [hsub]

/-- C3 counterexample: with a source line a@b@c.com (whose normalization
b@c.com is not a normalization fixed point) the first cycle writes b@c.com,
and a second cycle with identical responses reading that file rewrites the
file and reports 1 addition instead of 0. -/
theorem claim_C3_counterexample :
    process_sources none [some ["a@b@c.com".toList]] none =
      (some ["b@c.com".toList], 1) ∧
    process_sources none [some ["a@b@c.com".toList]] (some ["b@c.com".toList]) =
      (some ["b@c.com".toList, "c.com".toList], 1) := by decide

/-- C3 amended: a refresh cycle is idempotent provided every line of the
file left by the first run is a fixed point of normalization: a second run
with identical source and allowlist responses leaves the file unchanged and
reports 0 additions. -/
theorem claim_C3_amended (a : Option (List Str)) (rs : List (Option (List Str)))
    (f : Option (List Str))
    (hfix : ∀ l ∈ ((process_sources a rs f).1.getD []), normalize_domain l = l) :
    process_sources a rs (process_sources a rs f).1 = ((process_sources a rs f).1, 0) := by
  by_cases hg : (apply_allowlist (fetch_multiple_sources rs) (fetch_domains_from_url a)).1 = ∅ ∧
      (apply_allowlist (load_existing_domains f) (fetch_domains_from_url a)).2 = 0
  · have h1 : process_sources a rs f = (f, 0) := process_sources_guard_eq a rs f hg.1 hg.2
    rw [h1]
    exact h1
  · have h1 := process_sources_main_eq a rs f hg
    by_cases hW : (apply_allowlist (load_existing_domains f) (fetch_domains_from_url a)).1 ∪
        (apply_allowlist (fetch_multiple_sources rs) (fetch_domains_from_url a)).1 ≠
        load_existing_domains f
    · rw [if_pos hW] at h1
      set A := fetch_domains_from_url a with hAdef
      set S := (apply_allowlist (load_existing_domains f) A).1 with hSdef
      set FF := (apply_allowlist (fetch_multiple_sources rs) A).1 with hFFdef
      have hne : ∀ d ∈ S ∪ FF, d ≠ [] := by
        intro d hd
        rcases Finset.mem_union.mp hd with hd | hd
        · exact mem_load_ne_nil (apply_allowlist_fst_subset _ _ hd)
        · exact mem_fetch_multiple_ne_nil (apply_allowlist_fst_subset _ _ hd)
      have hfix2 : ∀ d ∈ S ∪ FF, normalize_domain d = d := by
        intro d hd
        apply hfix
        rw [h1]
        simpa using mem_write_domains.mpr hd
      have hload : load_existing_domains (some (write_domains (S ∪ FF))) = S ∪ FF :=
        load_write hne hfix2
      have hdisj : Disjoint (S ∪ FF) A :=
        Finset.disjoint_union_left.mpr
          ⟨apply_allowlist_fst_disjoint _ _, apply_allowlist_fst_disjoint _ _⟩
      rw [h1]
      by_cases hFF0 : FF = ∅
      · apply process_sources_guard_eq
        · exact hFF0
        · rw [hload, apply_allowlist_of_disjoint hdisj]
      · have h2 := process_sources_main_eq a rs (some (write_domains (S ∪ FF)))
          (fun hcon => hFF0 hcon.1)
        simp only [hload, apply_allowlist_of_disjoint hdisj] at h2
        have hUE : (S ∪ FF) ∪ FF = S ∪ FF := by
          rw [Finset.union_assoc, Finset.union_self]
        rw [hUE] at h2
        have hcond : ¬((S ∪ FF) ≠ (S ∪ FF)) := fun hne' => hne' rfl
        rw [if_neg hcond] at h2
        have hsd : FF \ (S ∪ FF) = ∅ :=
          Finset.sdiff_eq_empty_iff_subset.mpr Finset.subset_union_right
        rw [hsd, Finset.card_empty] at h2
        exact h2
    · rw [if_neg hW] at h1
      have hfinal : (apply_allowlist (load_existing_domains f) (fetch_domains_from_url a)).1 ∪
          (apply_allowlist (fetch_multiple_sources rs) (fetch_domains_from_url a)).1 =
          load_existing_domains f := not_not.mp hW
      have hFFsub : (apply_allowlist (fetch_multiple_sources rs) (fetch_domains_from_url a)).1 ⊆
          (apply_allowlist (load_existing_domains f) (fetch_domains_from_url a)).1 := by
        intro d hd
        have hdA : d ∉ fetch_domains_from_url a :=
          Finset.disjoint_left.mp (apply_allowlist_fst_disjoint _ _) hd
        have hdP : d ∈ load_existing_domains f := by
          rw [← hfinal]
          exact Finset.mem_union_right _ hd
        exact mem_apply_allowlist_fst hdP hdA
      have hsd : (apply_allowlist (fetch_multiple_sources rs) (fetch_domains_from_url a)).1 \
          (apply_allowlist (load_existing_domains f) (fetch_domains_from_url a)).1 = ∅ :=
        Finset.sdiff_eq_empty_iff_subset.mpr hFFsub
      rw [hsd, Finset.card_empty] at h1
      rw [h1]
      exact h1

/-- Witness for the amended C3: one healthy source and an initially missing
file; the second run is a no-op reporting 0 additions. -/
theorem claim_C3_amended_witness :
    process_sources none [some ["a.com".toList]]
        (process_sources none [some ["a.com".toList]] none).1 =
      ((process_sources none [some ["a.com".toList]] none).1, 0) :=
  claim_C3_amended none [some ["a.com".toList]] none (by decide)

/-- C6: past the outage guard the cycle persists the union of the sanitized
existing set and the filtered fetched set exactly when it differs from the
loaded set, and returns the number of fetched domains not already present;
on the specification's example the file is rewritten with a.com, b.com,
c.com and the cycle returns 1. -/
theorem claim_C6_reconciler :
    (∀ (a : Option (List Str)) (rs : List (Option (List Str))) (f : Option (List Str)),
      ¬((apply_allowlist (fetch_multiple_sources rs) (fetch_domains_from_url a)).1 = ∅ ∧
        (apply_allowlist (load_existing_domains f) (fetch_domains_from_url a)).2 = 0) →
      process_sources a rs f =
        (if (apply_allowlist (load_existing_domains f) (fetch_domains_from_url a)).1 ∪
              (apply_allowlist (fetch_multiple_sources rs) (fetch_domains_from_url a)).1 ≠
              load_existing_domains f
          then some (write_domains
            ((apply_allowlist (load_existing_domains f) (fetch_domains_from_url a)).1 ∪
             (apply_allowlist (fetch_multiple_sources rs) (fetch_domains_from_url a)).1))
          else f,
         ((apply_allowlist (fetch_multiple_sources rs) (fetch_domains_from_url a)).1 \
          (apply_allowlist (load_existing_domains f) (fetch_domains_from_url a)).1).card)) ∧
    process_sources none [some ["b.com".toList, "c.com".toList]]
        (some ["a.com".toList, "b.com".toList]) =
      (some ["a.com".toList, "b.com".toList, "c.com".toList], 1) := by
  refine ⟨process_sources_main_eq, ?_⟩
  decide

/-- Witness for C6 instantiated at the specification's example inputs. -/
theorem claim_C6_witness :
    process_sources none [some ["b.com".toList, "c.com".toList]]
        (some ["a.com".toList, "b.com".toList]) =
      (if (apply_allowlist (load_existing_domains (some ["a.com".toList, "b.com".toList]))
              (fetch_domains_from_url none)).1 ∪
            (apply_allowlist (fetch_multiple_sources [some ["b.com".toList, "c.com".toList]])
              (fetch_domains_from_url none)).1 ≠
            load_existing_domains (some ["a.com".toList, "b.com".toList])
        then some (write_domains
          ((apply_allowlist (load_existing_domains (some ["a.com".toList, "b.com".toList]))
              (fetch_domains_from_url none)).1 ∪
           (apply_allowlist (fetch_multiple_sources [some ["b.com".toList, "c.com".toList]])
              (fetch_domains_from_url none)).1))
        else some ["a.com".toList, "b.com".toList],
       ((apply_allowlist (fetch_multiple_sources [some ["b.com".toList, "c.com".toList]])
            (fetch_domains_from_url none)).1 \
        (apply_allowlist (load_existing_domains (some ["a.com".toList, "b.com".toList]))
            (fetch_domains_from_url none)).1).card) :=
  claim_C6_reconciler.1 none [some ["b.com".toList, "c.com".toList]]
    (some ["a.com".toList, "b.com".toList]) (by decide)

/-- C8 counterexample: with allowlist {c.com} and a source line a@b@c.com
the cycle writes the single line b@c.com; the domain set stored in that
file, read back by the program's own loader, contains the allowlisted
domain c.com, so the persisted set at the end of the cycle is not free of
allowlisted domains. -/
theorem claim_C8_counterexample :
    fetch_domains_from_url (some ["c.com".toList]) ≠ ∅ ∧
    (process_sources (some ["c.com".toList]) [some ["a@b@c.com".toList]] none).1 =
      some ["b@c.com".toList] ∧
    "c.com".toList ∈ load_existing_domains
      ((process_sources (some ["c.com".toList]) [some ["a@b@c.com".toList]] none).1) ∧
    "c.com".toList ∈ fetch_domains_from_url (some ["c.com".toList]) := by decide

/-- C8 amended: when the fetched allowlist is non-empty, the domain set the
cycle keeps — the loaded set when untouched, otherwise exactly what it
writes — is disjoint from the allowlist; only re-normalization on a later
load can reintroduce an allowlisted domain. -/
theorem claim_C8_amended (a : Option (List Str)) (rs : List (Option (List Str)))
    (f : Option (List Str)) (hA : fetch_domains_from_url a ≠ ∅) :
    Disjoint (cycle_final_set a rs f) (fetch_domains_from_url a) ∧
    ((process_sources a rs f).1 = f ∨
      (process_sources a rs f).1 = some (write_domains (cycle_final_set a rs f))) := by
  by_cases hg : (apply_allowlist (fetch_multiple_sources rs) (fetch_domains_from_url a)).1 = ∅ ∧
      (apply_allowlist (load_existing_domains f) (fetch_domains_from_url a)).2 = 0
  · have hset : cycle_final_set a rs f = load_existing_domains f := by
      unfold cycle_final_set
      rw [if_pos hg]
    constructor
    · rw [hset]
      exact (disjoint_of_apply_allowlist_snd_zero hA hg.2)
    · left
      rw [process_sources_guard_eq a rs f hg.1 hg.2]
  · have hset : cycle_final_set a rs f =
        (apply_allowlist (load_existing_domains f) (fetch_domains_from_url a)).1 ∪
        (apply_allowlist (fetch_multiple_sources rs) (fetch_domains_from_url a)).1 := by
      unfold cycle_final_set
      rw [if_neg hg]
    constructor
    · rw [hset]
      exact Finset.disjoint_union_left.mpr
        ⟨apply_allowlist_fst_disjoint _ _, apply_allowlist_fst_disjoint _ _⟩
    · rw [process_sources_main_eq a rs f hg]
      by_cases hW : (apply_allowlist (load_existing_domains f) (fetch_domains_from_url a)).1 ∪
          (apply_allowlist (fetch_multiple_sources rs) (fetch_domains_from_url a)).1 ≠
          load_existing_domains f
      · right
        rw [if_pos hW, hset]
      · left
        rw [if_neg hW]

/-- Witness for the amended C8: allowlist {x.com}, no sources, missing
file. -/
theorem claim_C8_witness :
    Disjoint (cycle_final_set (some ["x.com".toList]) [] none)
        (fetch_domains_from_url (some ["x.com".toList])) ∧
    ((process_sources (some ["x.com".toList]) [] none).1 = none ∨
      (process_sources (some ["x.com".toList]) [] none).1 =
        some (write_domains (cycle_final_set (some ["x.com".toList]) [] none))) :=
  claim_C8_amended (some ["x.com".toList]) [] none (by decide)

end BlacklistEmail
